import Mathlib

/-!
Verification of the DiaryML analytics engine (`backend/analytics.py` and
`backend/temporal_intelligence.py`) against its natural-language specification.

Conventions of the shallow embedding:
* Calendar dates and day-granularity timestamps are integers (day numbers);
  the total order on them matches chronological / ISO-string order.
* Emotion scores and averages are rationals (`ℚ`); the Python code uses
  floats, but every claim under scrutiny concerns the algebraic structure of
  the computations, which is float-representation independent at the
  thresholds involved.
* Python `dict`s are insertion-ordered association lists; `max(...)` over an
  iterable keeps the first element attaining the maximum (later elements
  replace the current best only when strictly greater), which is exactly
  CPython's behaviour.
* A Python `dict` return value with a key missing in one branch is modelled
  by an `Option` field that is `none` in that branch.
-/

namespace DiaryML

/-! ## Streak calculator (`DeepAnalytics.get_writing_streak`) -/

/-- Return record of `get_writing_streak`.  The `entries_this_week` /
`entries_this_month` fields are `Option` because the empty-history early
return (analytics.py lines 27-33) omits those dict keys entirely. -/
structure StreakResult where
  current_streak : Nat
  longest_streak : Nat
  last_entry_date : Option Int
  total_entries : Nat
  entries_this_week : Option Nat
  entries_this_month : Option Nat
deriving DecidableEq, Repr

/-- The `for date in dates` loop computing the current streak
(analytics.py lines 50-56): count while `date == check_date`, stop at the
first date strictly earlier than `check_date - 1`, silently skip a date
equal to `check_date - 1`. -/
def currentLoop : List Int → Int → Nat → Nat
  | [], _, acc => acc
  | d :: rest, check, acc =>
    if d = check then currentLoop rest (check - 1) (acc + 1)
    else if d < check - 1 then acc
    else currentLoop rest check acc

/-- The adjacent-pair loop computing the longest streak (analytics.py
lines 59-69), including the final `max(longest_streak, temp_streak)`. -/
def longestLoop : List Int → Nat → Nat → Nat
  | d1 :: d2 :: rest, temp, long =>
    if d1 - d2 = 1 then longestLoop (d2 :: rest) (temp + 1) (max long (temp + 1))
    else longestLoop (d2 :: rest) 1 long
  | _, temp, long => max long temp

/-- `DeepAnalytics.get_writing_streak` (analytics.py lines 18-78), with the
entry history abstracted to the list of entry dates (one per entry, as
produced by `datetime.fromisoformat(e["timestamp"]).date()`) and the wall
clock `datetime.now().date()` passed explicitly as `today`. -/
def get_writing_streak (entryDates : List Int) (today : Int) : StreakResult :=
  if entryDates = [] then
    { current_streak := 0, longest_streak := 0, last_entry_date := none
      total_entries := 0, entries_this_week := none, entries_this_month := none }
  else
    let dates := List.insertionSort (fun a b => a ≥ b) entryDates.dedup
    let current : Nat :=
      match dates with
      | [] => 0
      | d0 :: _ => if d0 = today ∨ d0 = today - 1 then currentLoop dates d0 0 else 0
    { current_streak := current
      longest_streak := longestLoop dates 1 0
      last_entry_date := dates.head?
      total_entries := entryDates.length
      entries_this_week := some ((dates.filter (fun d => today - 7 ≤ d)).length)
      entries_this_month := some ((dates.filter (fun d => today - 30 ≤ d)).length) }

/-- Length of the run of dates matched by `currentLoop` when started at
`check`: count while each date equals the expected value, which decreases
by one per counted date. -/
def runCount : List Int → Int → Nat
  | [], _ => 0
  | d :: rest, check => if d = check then runCount rest (check - 1) + 1 else 0

/-- Length of the maximal initial block of consecutive (step minus one)
dates of a descending date list. -/
def initRun : List Int → Nat
  | d1 :: d2 :: rest => if d1 - d2 = 1 then initRun (d2 :: rest) + 1 else 1
  | [_] => 1
  | [] => 0

theorem currentLoop_cons (d : Int) (rest : List Int) (check : Int) (acc : Nat) :
    currentLoop (d :: rest) check acc =
      if d = check then currentLoop rest (check - 1) (acc + 1)
      else if d < check - 1 then acc else currentLoop rest check acc := rfl

theorem runCount_cons (d : Int) (rest : List Int) (check : Int) :
    runCount (d :: rest) check =
      if d = check then runCount rest (check - 1) + 1 else 0 := rfl

theorem initRun_cons₂ (d1 d2 : Int) (rest : List Int) :
    initRun (d1 :: d2 :: rest) =
      if d1 - d2 = 1 then initRun (d2 :: rest) + 1 else 1 := rfl

theorem currentLoop_of_forall_lt {l : List Int} {check : Int} (acc : Nat)
    (h : ∀ x ∈ l, x < check - 1) : currentLoop l check acc = acc := by
  cases l with
  | nil => rfl
  | cons d rest =>
    have hd : d < check - 1 := h d (List.mem_cons_self _ _)
    have hne : d ≠ check := by omega
    simp [currentLoop, hne, hd]

theorem currentLoop_eq_runCount {l : List Int} (hl : l.Pairwise (fun a b => a > b)) :
    ∀ check acc, (∀ x ∈ l, x ≤ check) → currentLoop l check acc = acc + runCount l check := by
  induction l with
  | nil => intro check acc _; simp [currentLoop, runCount]
  | cons d rest ih =>
    intro check acc hle
    have hrest := (List.pairwise_cons.mp hl).2
    have hdlt : ∀ x ∈ rest, x < d := (List.pairwise_cons.mp hl).1
    by_cases hd : d = check
    · subst hd
      have hle' : ∀ x ∈ rest, x ≤ d - 1 := by
        intro x hx; have := hdlt x hx; omega
      rw [currentLoop_cons, if_pos rfl, runCount_cons, if_pos rfl,
        ih hrest (d - 1) (acc + 1) hle']
      omega
    · have hdc : d ≤ check := hle d (List.mem_cons_self _ _)
      by_cases hlt : d < check - 1
      · simp [currentLoop, hd, hlt, runCount]
      · -- d = check - 1: the loop falls through this date, then every later
        -- date is < check - 1, so the accumulator is returned unchanged.
        have hdeq : d = check - 1 := by omega
        have hltall : ∀ x ∈ rest, x < check - 1 := by
          intro x hx; have := hdlt x hx; omega
        simp [currentLoop, hd, hlt, runCount, currentLoop_of_forall_lt acc hltall]

theorem runCount_head_eq_initRun : ∀ (rest : List Int) (d : Int),
    runCount (d :: rest) d = initRun (d :: rest) := by
  intro rest
  induction rest with
  | nil => intro d; simp [runCount, initRun]
  | cons d2 r ih =>
    intro d
    rw [runCount_cons, if_pos rfl, runCount_cons, initRun_cons₂]
    by_cases h : d - d2 = 1
    · have hd2 : d2 = d - 1 := by omega
      have hr : runCount (d2 :: r) d2 = runCount r (d2 - 1) + 1 := by
        rw [runCount_cons, if_pos rfl]
      rw [if_pos h, if_pos hd2, show d - 1 - 1 = d2 - 1 by omega, ← hr, ih d2]
    · have hne : ¬ (d2 = d - 1) := by omega
      rw [if_neg h, if_neg hne]

theorem le_longestLoop : ∀ (l : List Int) (temp long : Nat), long ≤ longestLoop l temp long := by
  intro l
  induction l with
  | nil => intro temp long; simp [longestLoop]
  | cons d1 rest ih =>
    intro temp long
    cases rest with
    | nil => simp [longestLoop]
    | cons d2 r =>
      by_cases h : d1 - d2 = 1
      · simp only [longestLoop, if_pos h]
        exact le_trans (le_max_left _ _) (ih (temp + 1) (max long (temp + 1)))
      · simp only [longestLoop, if_neg h]
        exact ih 1 long

theorem one_le_longestLoop : ∀ (l : List Int) (long : Nat), 1 ≤ longestLoop l 1 long := by
  intro l
  induction l with
  | nil => intro long; simp [longestLoop]
  | cons d1 rest ih =>
    intro long
    cases rest with
    | nil => simp [longestLoop]
    | cons d2 r =>
      by_cases h : d1 - d2 = 1
      · simp only [longestLoop, if_pos h]
        exact le_trans (le_trans (by omega) (le_max_right long 2))
          (le_longestLoop (d2 :: r) 2 (max long 2))
      · simp only [longestLoop, if_neg h]
        exact ih long

theorem initRun_le_longestLoop : ∀ (l : List Int) (temp long : Nat),
    (temp = 1 ∨ temp ≤ long) → temp + initRun l ≤ longestLoop l temp long + 1 := by
  intro l
  induction l with
  | nil => intro temp long hinv; simp [longestLoop, initRun] <;> omega
  | cons d1 rest ih =>
    intro temp long hinv
    cases rest with
    | nil =>
      simp only [longestLoop, initRun]
      rcases hinv with h1 | h2 <;> omega
    | cons d2 r =>
      by_cases h : d1 - d2 = 1
      · simp only [longestLoop, if_pos h, initRun]
        have := ih (temp + 1) (max long (temp + 1)) (Or.inr (le_max_right _ _))
        omega
      · simp only [longestLoop, if_neg h, initRun]
        rcases hinv with h1 | h2
        · subst h1
          have := one_le_longestLoop (d2 :: r) long
          omega
        · have := le_longestLoop (d2 :: r) 1 long
          omega

/-- C4: for every entry history (list of entry dates) and every value of
"today", the `current_streak` returned by `get_writing_streak` is at most
the `longest_streak` it returns. -/
theorem C4_current_streak_le_longest_streak (entryDates : List Int) (today : Int) :
    (get_writing_streak entryDates today).current_streak ≤
      (get_writing_streak entryDates today).longest_streak := by
  unfold get_writing_streak
  by_cases hemp : entryDates = []
  · simp [hemp]
  · simp only [if_neg hemp]
    set dates := List.insertionSort (fun a b : Int => a ≥ b) entryDates.dedup with hdates
    have hsorted : List.Sorted (fun a b : Int => a ≥ b) dates :=
      List.sorted_insertionSort _ _
    have hnodup : dates.Nodup :=
      ((List.perm_insertionSort _ _).nodup_iff).mpr entryDates.nodup_dedup
    have hgt : dates.Pairwise (fun a b => a > b) := by
      have := List.Pairwise.and hsorted hnodup
      exact this.imp (fun hab => lt_of_le_of_ne hab.1 (Ne.symm hab.2))
    cases hd : dates with
    | nil => simp
    | cons d0 rest =>
      simp only
      by_cases hcond : d0 = today ∨ d0 = today - 1
      · simp only [if_pos hcond]
        rw [hd] at hgt
        have hle : ∀ x ∈ d0 :: rest, x ≤ d0 := by
          intro x hx
          rcases List.mem_cons.mp hx with h | h
          · omega
          · exact (List.pairwise_cons.mp hgt).1 x h |>.le
        have h1 := currentLoop_eq_runCount hgt d0 0 hle
        have h2 := runCount_head_eq_initRun rest d0
        have h3 := initRun_le_longestLoop (d0 :: rest) 1 0 (Or.inl rfl)
        omega
      · simp [hcond]

/-- C8 counterexample: on the empty history the code's early return omits
the trailing 7-day (and 30-day) count keys altogether — in the embedding
the field is `none`, not `some 0` — so the claim that "every count output,
including the trailing 7- and 30-day entry counts, is zero" is false. -/
theorem C8_counterexample_week_count_absent :
    (get_writing_streak [] 0).entries_this_week = none ∧
      (get_writing_streak [] 0).entries_this_week ≠ some 0 ∧
      (get_writing_streak [] 0).entries_this_month ≠ some 0 := by
  refine ⟨rfl, ?_, ?_⟩ <;> simp [get_writing_streak]

/-- C8 (amended): on the empty history, `current_streak`, `longest_streak`
and `total_entries` are zero and `last_entry_date` is null, while the
trailing 7- and 30-day entry counts are absent from the result (the early
return does not populate them). -/
theorem C8_empty_history_result (today : Int) :
    get_writing_streak [] today =
      { current_streak := 0, longest_streak := 0, last_entry_date := none
        total_entries := 0, entries_this_week := none, entries_this_month := none } := by
  rfl

/-! ## Mood trend analyzer (`DeepAnalytics.analyze_temporal_mood_patterns`) -/

/-- One row of `db.get_mood_timeline`: a per-day per-emotion average score.
The `date` is a day number (ISO date strings compare like integers). -/
structure TimelineRow where
  date : Int
  emotion : String
  avg_score : ℚ
deriving DecidableEq, Repr

/-- Appending one timeline row to the insertion-ordered
`emotions_over_time` grouping (`defaultdict(list)` keyed by emotion). -/
def groupAdd : List (String × List (Int × ℚ)) → TimelineRow → List (String × List (Int × ℚ))
  | [], row => [(row.emotion, [(row.date, row.avg_score)])]
  | (e, pts) :: rest, row =>
    if e = row.emotion then (e, pts ++ [(row.date, row.avg_score)]) :: rest
    else (e, pts) :: groupAdd rest row

/-- The `emotions_over_time` grouping of analytics.py lines 97-102. -/
def emotions_over_time (timeline : List TimelineRow) : List (String × List (Int × ℚ)) :=
  timeline.foldl groupAdd []

/-- `statistics.mean` on a nonempty list (all call sites guard nonemptiness). -/
def mean (l : List ℚ) : ℚ := l.sum / l.length

/-- The per-emotion trend body of analytics.py lines 110-119: split at the
integer midpoint and compare half means against the 1.1 / 0.9 thresholds. -/
def trendLabel (scores : List ℚ) : String :=
  let mid := scores.length / 2
  if mean (scores.drop mid) > mean (scores.take mid) * (11/10) then "increasing"
  else if mean (scores.drop mid) < mean (scores.take mid) * (9/10) then "decreasing"
  else "stable"

/-- Scores of an emotion's data points sorted ascending by date
(analytics.py line 108).  Dates within one emotion are distinct (the
timeline is grouped per day and emotion upstream), so sort stability is
immaterial. -/
def sortedScores (pts : List (Int × ℚ)) : List ℚ :=
  (List.insertionSort (fun a b : Int × ℚ => a.1 ≤ b.1) pts).map Prod.snd

/-- The `trends` dict of analytics.py lines 105-119, as an
insertion-ordered list of (emotion, label) pairs. -/
def trends (timeline : List TimelineRow) : List (String × String) :=
  (emotions_over_time timeline).foldl
    (fun acc p =>
      if 2 ≤ p.2.length then acc ++ [(p.1, trendLabel (sortedScores p.2))] else acc)
    []

theorem mem_foldl_guard_append {α β : Type} (cond : α → Prop) [DecidablePred cond] (f : α → β) :
    ∀ (l : List α) (acc : List β) (x : β),
      (x ∈ l.foldl (fun a p => if cond p then a ++ [f p] else a) acc) ↔
        x ∈ acc ∨ ∃ p, p ∈ l ∧ cond p ∧ x = f p := by
  intro l
  induction l with
  | nil => intro acc x; simp
  | cons q l ih =>
    intro acc x
    simp only [List.foldl_cons]
    by_cases hq : cond q
    · rw [if_pos hq, ih]
      simp only [List.mem_append, List.mem_singleton, List.mem_cons, List.not_mem_nil,
        or_false]
      constructor
      · rintro ((h | h) | ⟨p, hp, hc, hx⟩)
        · exact Or.inl h
        · exact Or.inr ⟨q, Or.inl rfl, hq, h⟩
        · exact Or.inr ⟨p, Or.inr hp, hc, hx⟩
      · rintro (h | ⟨p, (rfl | hp), hc, hx⟩)
        · exact Or.inl (Or.inl h)
        · exact Or.inl (Or.inr hx)
        · exact Or.inr ⟨p, hp, hc, hx⟩
    · rw [if_neg hq, ih]
      constructor
      · rintro (h | ⟨p, hp, hc, hx⟩)
        · exact Or.inl h
        · exact Or.inr ⟨p, List.mem_cons_of_mem _ hp, hc, hx⟩
      · rintro (h | ⟨p, hp, hc, hx⟩)
        · exact Or.inl h
        · rcases List.mem_cons.mp hp with rfl | hp
          · exact absurd hc hq
          · exact Or.inr ⟨p, hp, hc, hx⟩

/-- C3: every trend label the analyzer emits comes from an emotion with at
least two dated points and equals the classification of its
date-sorted score series; the classifier splits the series at index
`len / 2` (the earlier half is never the longer one, and is strictly
shorter for odd length), labels `increasing` exactly when the second-half
mean exceeds the first-half mean times 1.1, `decreasing` exactly when it
is below the first-half mean times 0.9 (and not `increasing`), and
`stable` otherwise; the series [0.2, 0.3, 0.6, 0.7] is labelled
`increasing`. -/
theorem C3_mood_trend_classification :
    (∀ timeline em lab, (em, lab) ∈ trends timeline →
        ∃ pts, (em, pts) ∈ emotions_over_time timeline ∧ 2 ≤ pts.length ∧
          lab = trendLabel (sortedScores pts)) ∧
    (∀ s : List ℚ, 2 ≤ s.length →
        (1 ≤ (s.take (s.length / 2)).length ∧
          (s.take (s.length / 2)).length ≤ (s.drop (s.length / 2)).length ∧
          (Odd s.length →
            (s.take (s.length / 2)).length < (s.drop (s.length / 2)).length)) ∧
        (trendLabel s = "increasing" ↔
          mean (s.drop (s.length / 2)) > mean (s.take (s.length / 2)) * (11/10)) ∧
        (trendLabel s = "decreasing" ↔
          (¬ mean (s.drop (s.length / 2)) > mean (s.take (s.length / 2)) * (11/10) ∧
            mean (s.drop (s.length / 2)) < mean (s.take (s.length / 2)) * (9/10))) ∧
        (trendLabel s = "stable" ↔
          (¬ mean (s.drop (s.length / 2)) > mean (s.take (s.length / 2)) * (11/10) ∧
            ¬ mean (s.drop (s.length / 2)) < mean (s.take (s.length / 2)) * (9/10)))) ∧
    trends [⟨1, "joy", 2/10⟩, ⟨2, "joy", 3/10⟩, ⟨3, "joy", 6/10⟩, ⟨4, "joy", 7/10⟩] =
      [("joy", "increasing")] := by
  have hlab : trendLabel [2/10, 3/10, 6/10, 7/10] = "increasing" := by
    have hgt : mean (([2/10, 3/10, 6/10, 7/10] : List ℚ).drop
          (([2/10, 3/10, 6/10, 7/10] : List ℚ).length / 2)) >
        mean (([2/10, 3/10, 6/10, 7/10] : List ℚ).take
          (([2/10, 3/10, 6/10, 7/10] : List ℚ).length / 2)) * (11/10) := by
      norm_num [mean]
    unfold trendLabel
    rw [if_pos hgt]
  have hscen : trends [⟨1, "joy", 2/10⟩, ⟨2, "joy", 3/10⟩, ⟨3, "joy", 6/10⟩, ⟨4, "joy", 7/10⟩] =
      [("joy", trendLabel (sortedScores [(1, 2/10), (2, 3/10), (3, 6/10), (4, 7/10)]))] := rfl
  have hsort : sortedScores [(1, 2/10), (2, 3/10), (3, 6/10), (4, 7/10)] =
      [2/10, 3/10, 6/10, 7/10] := rfl
  refine ⟨?_, ?_, by rw [hscen, hsort, hlab]⟩
  · intro timeline em lab hmem
    have h := (mem_foldl_guard_append (fun p : String × List (Int × ℚ) => 2 ≤ p.2.length)
      (fun p => (p.1, trendLabel (sortedScores p.2)))
      (emotions_over_time timeline) [] (em, lab)).mp hmem
    rcases h with h | ⟨p, hp, hc, hx⟩
    · simp at h
    · refine ⟨p.2, ?_, hc, ?_⟩
      · have : p = (em, p.2) := by
          cases p; cases hx; rfl
        rw [← this]; exact hp
      · cases p; cases hx; rfl
  · intro s hs
    have hlen : s.length / 2 < s.length := by omega
    have htk : (s.take (s.length / 2)).length = s.length / 2 := by
      simp [List.length_take] <;> omega
    have hdr : (s.drop (s.length / 2)).length = s.length - s.length / 2 := by
      simp [List.length_drop]
    refine ⟨⟨?_, ?_, ?_⟩, ?_, ?_, ?_⟩
    · omega
    · omega
    · intro hodd
      rw [Nat.odd_iff] at hodd
      omega
    · unfold trendLabel
      by_cases h1 : mean (s.drop (s.length / 2)) > mean (s.take (s.length / 2)) * (11/10)
      · simp [h1]
      · by_cases h2 : mean (s.drop (s.length / 2)) < mean (s.take (s.length / 2)) * (9/10) <;>
          simp [h1, h2]
    · unfold trendLabel
      by_cases h1 : mean (s.drop (s.length / 2)) > mean (s.take (s.length / 2)) * (11/10)
      · simp [h1]
      · by_cases h2 : mean (s.drop (s.length / 2)) < mean (s.take (s.length / 2)) * (9/10) <;>
          simp [h1, h2]
    · unfold trendLabel
      by_cases h1 : mean (s.drop (s.length / 2)) > mean (s.take (s.length / 2)) * (11/10)
      · simp [h1]
      · by_cases h2 : mean (s.drop (s.length / 2)) < mean (s.take (s.length / 2)) * (9/10) <;>
          simp [h1, h2]

/-- C3 witness: the classifier clauses instantiated at the concrete series
[0.2, 0.3, 0.6, 0.7] and the pipeline clause at the corresponding
timeline. -/
theorem C3_witness :
    (∃ pts, (("joy", pts) ∈ emotions_over_time
        [⟨1, "joy", 2/10⟩, ⟨2, "joy", 3/10⟩, ⟨3, "joy", 6/10⟩, ⟨4, "joy", 7/10⟩]) ∧
        2 ≤ pts.length ∧ "increasing" = trendLabel (sortedScores pts)) ∧
      (trendLabel [2/10, 3/10, 6/10, 7/10] = "increasing" ↔
        mean ([2/10, 3/10, 6/10, 7/10].drop 2) >
          mean ([2/10, 3/10, 6/10, 7/10].take 2) * (11/10)) := by
  constructor
  · exact C3_mood_trend_classification.1 _ "joy" "increasing"
      (by rw [C3_mood_trend_classification.2.2]; exact List.mem_singleton.mpr rfl)
  · have h := (C3_mood_trend_classification.2.1 [2/10, 3/10, 6/10, 7/10] (by simp)).2.1
    simpa using h

/-! ## Dominant emotion per period (`DeepAnalytics._get_dominant_emotion_period`)

The Python cutoff is a full datetime ISO string compared against date-only
strings, so a date string equal to the cutoff's day compares below the
cutoff ("YYYY-MM-DD" < "YYYY-MM-DDTHH:MM:SS"); at day granularity the
window predicate is therefore strict. -/

/-- One `emotion_totals[emotion] += score` step on the insertion-ordered
`defaultdict(float)`: update the first matching key, or append a new one. -/
def bumpTotal : List (String × ℚ) → String → ℚ → List (String × ℚ)
  | [], em, sc => [(em, sc)]
  | (e, s) :: rest, em, sc =>
    if e = em then (e, s + sc) :: rest else (e, s) :: bumpTotal rest em sc

/-- The `emotion_totals` map of analytics.py lines 166-168. -/
def totalsOf (rows : List TimelineRow) : List (String × ℚ) :=
  rows.foldl (fun acc r => bumpTotal acc r.emotion r.avg_score) []

/-- Python `max(..., key=lambda x: x[1])`: the first element attaining the
maximal value (a later element replaces the best only if strictly
greater). -/
def pickMax (b : String × ℚ) (l : List (String × ℚ)) : String × ℚ :=
  l.foldl (fun best q => if q.2 > best.2 then q else best) b

def firstMax : List (String × ℚ) → Option (String × ℚ)
  | [] => none
  | p :: rest => some (pickMax p rest)

/-- `DeepAnalytics._get_dominant_emotion_period` (analytics.py
lines 158-172). -/
def dominant_emotion_period (timeline : List TimelineRow) (days now : Int) : Option String :=
  let recent := timeline.filter (fun e => now - days < e.date)
  if recent = [] then none
  else (firstMax (totalsOf recent)).map Prod.fst

/-- Summed score of one emotion over a row list (the mathematical content
of the `emotion_totals` entry for that emotion). -/
def sumScores (rows : List TimelineRow) (e : String) : ℚ :=
  ((rows.filter (fun r => r.emotion = e)).map (fun r => r.avg_score)).sum

/-- First-match lookup in the totals association list (0 if absent). -/
def lookTot : List (String × ℚ) → String → ℚ
  | [], _ => 0
  | (e, s) :: rest, em => if e = em then s else lookTot rest em

theorem bumpTotal_cons (e : String) (s : ℚ) (rest : List (String × ℚ)) (em : String) (sc : ℚ) :
    bumpTotal ((e, s) :: rest) em sc =
      if e = em then (e, s + sc) :: rest else (e, s) :: bumpTotal rest em sc := rfl

theorem lookTot_cons (e : String) (s : ℚ) (rest : List (String × ℚ)) (em : String) :
    lookTot ((e, s) :: rest) em = if e = em then s else lookTot rest em := rfl

theorem firstMax_cons (p : String × ℚ) (rest : List (String × ℚ)) :
    firstMax (p :: rest) = some (pickMax p rest) := rfl

theorem lookTot_bumpTotal : ∀ (acc : List (String × ℚ)) (em : String) (sc : ℚ) (x : String),
    lookTot (bumpTotal acc em sc) x = lookTot acc x + (if em = x then sc else 0) := by
  intro acc
  induction acc with
  | nil =>
    intro em sc x
    simp [bumpTotal, lookTot]
  | cons p rest ih =>
    intro em sc x
    obtain ⟨e, s⟩ := p
    rw [bumpTotal_cons]
    by_cases he : e = em
    · subst he
      rw [if_pos rfl, lookTot_cons, lookTot_cons]
      by_cases hx : e = x
      · subst hx
        rw [if_pos rfl, if_pos rfl, if_pos rfl]
      · rw [if_neg hx, if_neg hx, if_neg (fun hc : e = x => hx hc)]
        ring
    · rw [if_neg he, lookTot_cons, lookTot_cons]
      by_cases hx : e = x
      · subst hx
        have hne : ¬ (em = e) := fun h => he h.symm
        rw [if_pos rfl, if_pos rfl, if_neg hne]
        ring
      · rw [if_neg hx, if_neg hx, ih em sc x]

theorem mem_keys_bumpTotal : ∀ (acc : List (String × ℚ)) (em : String) (sc : ℚ) (x : String),
    x ∈ (bumpTotal acc em sc).map Prod.fst ↔ x ∈ acc.map Prod.fst ∨ x = em := by
  intro acc
  induction acc with
  | nil => intro em sc x; simp [bumpTotal]
  | cons p rest ih =>
    intro em sc x
    obtain ⟨e, s⟩ := p
    rw [bumpTotal_cons]
    by_cases he : e = em
    · subst he
      rw [if_pos rfl]
      simp only [List.map_cons, List.mem_cons]
      tauto
    · rw [if_neg he]
      simp only [List.map_cons, List.mem_cons, ih]
      tauto

theorem nodup_keys_bumpTotal : ∀ (acc : List (String × ℚ)) (em : String) (sc : ℚ),
    (acc.map Prod.fst).Nodup → ((bumpTotal acc em sc).map Prod.fst).Nodup := by
  intro acc
  induction acc with
  | nil => intro em sc _; simp [bumpTotal]
  | cons p rest ih =>
    intro em sc hnd
    obtain ⟨e, s⟩ := p
    simp only [List.map_cons, List.nodup_cons] at hnd
    rw [bumpTotal_cons]
    by_cases he : e = em
    · subst he
      rw [if_pos rfl]
      simp only [List.map_cons, List.nodup_cons]
      exact hnd
    · rw [if_neg he]
      simp only [List.map_cons, List.nodup_cons]
      refine ⟨?_, ih em sc hnd.2⟩
      rw [mem_keys_bumpTotal]
      rintro (h | h)
      · exact hnd.1 h
      · exact he h

theorem lookTot_totals_fold : ∀ (rows : List TimelineRow) (acc : List (String × ℚ)) (x : String),
    lookTot (rows.foldl (fun a r => bumpTotal a r.emotion r.avg_score) acc) x =
      lookTot acc x + sumScores rows x := by
  intro rows
  induction rows with
  | nil => intro acc x; simp [sumScores]
  | cons r rows ih =>
    intro acc x
    simp only [List.foldl_cons]
    rw [ih, lookTot_bumpTotal]
    by_cases h : r.emotion = x
    · simp [sumScores, List.filter_cons, h]
      ring
    · simp [sumScores, List.filter_cons, h]

theorem mem_keys_totals_fold : ∀ (rows : List TimelineRow) (acc : List (String × ℚ)) (x : String),
    x ∈ (rows.foldl (fun a r => bumpTotal a r.emotion r.avg_score) acc).map Prod.fst ↔
      x ∈ acc.map Prod.fst ∨ ∃ r ∈ rows, r.emotion = x := by
  intro rows
  induction rows with
  | nil => intro acc x; simp
  | cons r rows ih =>
    intro acc x
    simp only [List.foldl_cons, ih, mem_keys_bumpTotal, List.mem_cons]
    constructor
    · rintro ((h | h) | ⟨p, hp, hx⟩)
      · exact Or.inl h
      · exact Or.inr ⟨r, Or.inl rfl, h.symm⟩
      · exact Or.inr ⟨p, Or.inr hp, hx⟩
    · rintro (h | ⟨p, (rfl | hp), hx⟩)
      · exact Or.inl (Or.inl h)
      · exact Or.inl (Or.inr hx.symm)
      · exact Or.inr ⟨p, hp, hx⟩

theorem nodup_keys_totals_fold : ∀ (rows : List TimelineRow) (acc : List (String × ℚ)),
    (acc.map Prod.fst).Nodup →
      ((rows.foldl (fun a r => bumpTotal a r.emotion r.avg_score) acc).map Prod.fst).Nodup := by
  intro rows
  induction rows with
  | nil => intro acc h; exact h
  | cons r rows ih =>
    intro acc h
    exact ih _ (nodup_keys_bumpTotal acc r.emotion r.avg_score h)

theorem mem_of_nodup_keys : ∀ (acc : List (String × ℚ)), (acc.map Prod.fst).Nodup →
    ∀ (x : String) (t : ℚ), ((x, t) ∈ acc ↔ x ∈ acc.map Prod.fst ∧ t = lookTot acc x) := by
  intro acc
  induction acc with
  | nil => intro _ x t; simp
  | cons p rest ih =>
    intro hnd x t
    obtain ⟨e, s⟩ := p
    simp only [List.map_cons, List.nodup_cons] at hnd
    simp only [List.mem_cons, List.map_cons, Prod.mk.injEq]
    rw [lookTot_cons]
    constructor
    · rintro (⟨rfl, rfl⟩ | h)
      · rw [if_pos rfl]
        exact ⟨Or.inl rfl, rfl⟩
      · have hx : x ∈ rest.map Prod.fst := List.mem_map.mpr ⟨(x, t), h, rfl⟩
        have hne : ¬ (e = x) := fun hc => hnd.1 (hc ▸ hx)
        rw [if_neg hne]
        exact ⟨Or.inr hx, ((ih hnd.2 x t).mp h).2⟩
    · rintro ⟨hx | hx, ht⟩
      · subst hx
        rw [if_pos rfl] at ht
        exact Or.inl ⟨rfl, ht⟩
      · have hne : ¬ (e = x) := fun hc => hnd.1 (hc ▸ hx)
        rw [if_neg hne] at ht
        exact Or.inr ((ih hnd.2 x t).mpr ⟨hx, ht⟩)

theorem pickMax_spec : ∀ (l : List (String × ℚ)) (b : String × ℚ),
    (pickMax b l = b ∨ pickMax b l ∈ l) ∧ b.2 ≤ (pickMax b l).2 ∧
      ∀ q ∈ l, q.2 ≤ (pickMax b l).2 := by
  intro l
  induction l with
  | nil => intro b; simp [pickMax]
  | cons q l ih =>
    intro b
    by_cases hgt : q.2 > b.2
    · have hq : pickMax b (q :: l) = pickMax q l := by
        simp only [pickMax, List.foldl_cons, if_pos hgt]
      obtain ⟨hmem, hle, hall⟩ := ih q
      refine ⟨?_, ?_, ?_⟩
      · rw [hq]
        rcases hmem with h | h
        · rw [h]; exact Or.inr (List.mem_cons_self q l)
        · exact Or.inr (List.mem_cons_of_mem q h)
      · rw [hq]; exact le_trans (le_of_lt hgt) hle
      · intro p hp
        rw [hq]
        rcases List.mem_cons.mp hp with rfl | hp
        · exact hle
        · exact hall p hp
    · have hq : pickMax b (q :: l) = pickMax b l := by
        simp only [pickMax, List.foldl_cons, if_neg hgt]
      obtain ⟨hmem, hle, hall⟩ := ih b
      refine ⟨?_, ?_, ?_⟩
      · rw [hq]
        rcases hmem with h | h
        · exact Or.inl h
        · exact Or.inr (List.mem_cons_of_mem q h)
      · rw [hq]; exact hle
      · intro p hp
        rw [hq]
        rcases List.mem_cons.mp hp with rfl | hp
        · exact le_trans (le_of_not_lt hgt) hle
        · exact hall p hp

theorem totals_ne_nil {rows : List TimelineRow} (h : rows ≠ []) : totalsOf rows ≠ [] := by
  have hkey : ∀ (l : List TimelineRow) (acc : List (String × ℚ)),
      acc ≠ [] ∨ l ≠ [] → l.foldl (fun a r => bumpTotal a r.emotion r.avg_score) acc ≠ [] := by
    intro l
    induction l with
    | nil =>
      intro acc hc
      rcases hc with hc | hc
      · exact hc
      · exact absurd rfl hc
    | cons r l ih =>
      intro acc _
      simp only [List.foldl_cons]
      refine ih _ (Or.inl ?_)
      cases acc with
      | nil => simp [bumpTotal]
      | cons p rest =>
        obtain ⟨e, s⟩ := p
        rw [bumpTotal_cons]
        by_cases he : e = r.emotion
        · rw [if_pos he]; simp
        · rw [if_neg he]; simp
  exact hkey rows [] (Or.inr h)

/-- C7 counterexample: two timelines that are permutations of one another
(hence carry identical per-emotion summed scores, 0.5 for both "a" and
"b") make the dominant-emotion computation return different emotions —
the tie goes to the emotion inserted first into the totals map, so the
result depends on the map's iteration order and the tie-break is not
alphabetical. -/
theorem C7_counterexample_order_dependent_tie :
    dominant_emotion_period [⟨5, "b", 1/2⟩, ⟨5, "a", 1/2⟩] 7 10 = some "b" ∧
      dominant_emotion_period [⟨5, "a", 1/2⟩, ⟨5, "b", 1/2⟩] 7 10 = some "a" ∧
      ([⟨5, "b", 1/2⟩, ⟨5, "a", 1/2⟩] : List TimelineRow).Perm
        [⟨5, "a", 1/2⟩, ⟨5, "b", 1/2⟩] ∧
      sumScores [⟨5, "b", 1/2⟩, ⟨5, "a", 1/2⟩] "a" =
        sumScores [⟨5, "b", 1/2⟩, ⟨5, "a", 1/2⟩] "b" ∧
      (some "b" : Option String) ≠ some "a" := by
  refine ⟨?_, ?_, List.Perm.swap _ _ _, ?_, by simp⟩
  · have h : dominant_emotion_period [⟨5, "b", 1/2⟩, ⟨5, "a", 1/2⟩] 7 10 =
        (firstMax (totalsOf [⟨5, "b", 1/2⟩, ⟨5, "a", 1/2⟩])).map Prod.fst := rfl
    have ht : totalsOf [⟨5, "b", (1:ℚ)/2⟩, ⟨5, "a", 1/2⟩] = [("b", 1/2), ("a", 1/2)] := rfl
    have hp : pickMax ("b", (1:ℚ)/2) [("a", 1/2)] = ("b", 1/2) := by
      have : ¬ ((1:ℚ)/2 > 1/2) := lt_irrefl _
      simp only [pickMax, List.foldl_cons, List.foldl_nil]
      rw [if_neg this]
    rw [h, ht, firstMax_cons, hp, Option.map]
  · have h : dominant_emotion_period [⟨5, "a", 1/2⟩, ⟨5, "b", 1/2⟩] 7 10 =
        (firstMax (totalsOf [⟨5, "a", 1/2⟩, ⟨5, "b", 1/2⟩])).map Prod.fst := rfl
    have ht : totalsOf [⟨5, "a", (1:ℚ)/2⟩, ⟨5, "b", 1/2⟩] = [("a", 1/2), ("b", 1/2)] := rfl
    have hp : pickMax ("a", (1:ℚ)/2) [("b", 1/2)] = ("a", 1/2) := by
      have : ¬ ((1:ℚ)/2 > 1/2) := lt_irrefl _
      simp only [pickMax, List.foldl_cons, List.foldl_nil]
      rw [if_neg this]
    rw [h, ht, firstMax_cons, hp, Option.map]
  · show sumScores [⟨5, "b", 1/2⟩, ⟨5, "a", 1/2⟩] "a" =
      sumScores [⟨5, "b", 1/2⟩, ⟨5, "a", 1/2⟩] "b"
    simp [sumScores, List.filter_cons, List.filter_nil]

/-- C7 (amended): for a fixed timeline and period the dominant-emotion
computation is a pure, deterministic function of the input list: it
returns `none` exactly when no row falls in the window, and otherwise an
emotion that appears in the window and whose summed score is maximal
among all emotions appearing there.  Ties on the maximal sum, however,
are resolved by the order in which emotions first appear in the timeline
(the totals map's insertion order), not alphabetically, so permuting the
timeline may change the result. -/
theorem C7_dominant_emotion_maximal (timeline : List TimelineRow) (days now : Int) :
    (dominant_emotion_period timeline days now = none ↔
      timeline.filter (fun e => now - days < e.date) = []) ∧
    (∀ em, dominant_emotion_period timeline days now = some em →
      (∃ r ∈ timeline.filter (fun e => now - days < e.date), r.emotion = em) ∧
        ∀ x, (∃ r ∈ timeline.filter (fun e => now - days < e.date), r.emotion = x) →
          sumScores (timeline.filter (fun e => now - days < e.date)) x ≤
            sumScores (timeline.filter (fun e => now - days < e.date)) em) := by
  set recent := timeline.filter (fun e => now - days < e.date) with hrec
  have hlook : ∀ x, lookTot (totalsOf recent) x = sumScores recent x := by
    intro x
    have h := lookTot_totals_fold recent [] x
    simpa [totalsOf, lookTot] using h
  have hnd : ((totalsOf recent).map Prod.fst).Nodup :=
    nodup_keys_totals_fold recent [] (by simp)
  have hkeys : ∀ x, x ∈ (totalsOf recent).map Prod.fst ↔ ∃ r ∈ recent, r.emotion = x := by
    intro x
    have h := mem_keys_totals_fold recent [] x
    simpa [totalsOf] using h
  constructor
  · constructor
    · intro h
      by_contra hne
      have htot := totals_ne_nil hne
      unfold dominant_emotion_period at h
      rw [← hrec, if_neg hne] at h
      cases htot' : totalsOf recent with
      | nil => exact htot htot'
      | cons p rest =>
        rw [htot', firstMax_cons] at h
        simp at h
    · intro h
      unfold dominant_emotion_period
      rw [← hrec, if_pos h]
  · intro em hsome
    unfold dominant_emotion_period at hsome
    rw [← hrec] at hsome
    by_cases hne : recent = []
    · rw [if_pos hne] at hsome; cases hsome
    · rw [if_neg hne] at hsome
      cases htot' : totalsOf recent with
      | nil => exact absurd htot' (totals_ne_nil hne)
      | cons p rest =>
        rw [htot', firstMax_cons] at hsome
        have hem : (pickMax p rest).1 = em := by
          simpa using hsome
        obtain ⟨hmem0, hle0, hall0⟩ := pickMax_spec rest p
        have hwmem : pickMax p rest ∈ totalsOf recent := by
          rw [htot']
          rcases hmem0 with h | h
          · rw [h]; exact List.mem_cons_self _ _
          · exact List.mem_cons_of_mem _ h
        have hwmax : ∀ q ∈ totalsOf recent, q.2 ≤ (pickMax p rest).2 := by
          intro q hq
          rw [htot'] at hq
          rcases List.mem_cons.mp hq with rfl | hq
          · exact hle0
          · exact hall0 q hq
        have hpair : ((pickMax p rest).1, (pickMax p rest).2) ∈ totalsOf recent := by
          simpa using hwmem
        have hmm := (mem_of_nodup_keys (totalsOf recent) hnd (pickMax p rest).1
          (pickMax p rest).2).mp hpair
        have hwval : (pickMax p rest).2 = sumScores recent em := by
          rw [← hem, ← hlook (pickMax p rest).1]
          exact hmm.2
        constructor
        · rw [← hkeys, ← hem]
          exact hmm.1
        · intro x hx
          rw [← hkeys] at hx
          have hxmem : (x, lookTot (totalsOf recent) x) ∈ totalsOf recent :=
            (mem_of_nodup_keys (totalsOf recent) hnd x _).mpr ⟨hx, rfl⟩
          have hqle := hwmax _ hxmem
          rw [hlook x] at hqle
          rw [← hwval]
          exact hqle

/-- C7 witness: the amended theorem instantiated on a concrete two-row
timeline where "b" wins; the hypothesis is discharged by computing the
dominant emotion there. -/
theorem C7_witness :
    (∃ r ∈ ([⟨5, "b", 1/2⟩, ⟨5, "a", 1/2⟩] : List TimelineRow).filter
        (fun e => (10:Int) - 7 < e.date), r.emotion = "b") ∧
      ∀ x, (∃ r ∈ ([⟨5, "b", 1/2⟩, ⟨5, "a", 1/2⟩] : List TimelineRow).filter
          (fun e => (10:Int) - 7 < e.date), r.emotion = x) →
        sumScores (([⟨5, "b", 1/2⟩, ⟨5, "a", 1/2⟩] : List TimelineRow).filter
            (fun e => (10:Int) - 7 < e.date)) x ≤
          sumScores (([⟨5, "b", 1/2⟩, ⟨5, "a", 1/2⟩] : List TimelineRow).filter
            (fun e => (10:Int) - 7 < e.date)) "b" :=
  (C7_dominant_emotion_maximal [⟨5, "b", 1/2⟩, ⟨5, "a", 1/2⟩] 7 10).2 "b"
    (by
      have h : dominant_emotion_period [⟨5, "b", 1/2⟩, ⟨5, "a", 1/2⟩] 7 10 =
          (firstMax (totalsOf [⟨5, "b", 1/2⟩, ⟨5, "a", 1/2⟩])).map Prod.fst := rfl
      have ht : totalsOf [⟨5, "b", (1:ℚ)/2⟩, ⟨5, "a", 1/2⟩] = [("b", 1/2), ("a", 1/2)] := rfl
      have hp : pickMax ("b", (1:ℚ)/2) [("a", 1/2)] = ("b", 1/2) := by
        have hlt : ¬ ((1:ℚ)/2 > 1/2) := lt_irrefl _
        simp only [pickMax, List.foldl_cons, List.foldl_nil]
        rw [if_neg hlt]
      rw [h, ht, firstMax_cons, hp, Option.map])

/-! ## Productivity scorer (`DeepAnalytics.get_creative_productivity_score`)

The four factor inputs (current streak, trailing-7-day entry count,
dominant emotion of the last week, count of projects with status
"active") are produced by the other analyses; the scorer itself is a pure
function of them (analytics.py lines 232-285). -/

/-- Consistency factor, 0-30 points (analytics.py lines 236-243). -/
def consistencyFactor (current_streak : Nat) : Nat :=
  if 7 ≤ current_streak then 30
  else if 3 ≤ current_streak then 20
  else if 1 ≤ current_streak then 10
  else 0

/-- Volume factor, 0-30 points (analytics.py lines 246-256). -/
def volumeFactor (week_entries : Nat) : Nat :=
  if 7 ≤ week_entries then 30
  else if 5 ≤ week_entries then 25
  else if 3 ≤ week_entries then 15
  else if 1 ≤ week_entries then 10
  else 0

def positive_moods : List String := ["joy", "love", "excitement", "calm"]

/-- Mood factor, 10 or 20 points; a missing dominant emotion (`None`) is
not in the positive list and scores 10 (analytics.py lines 259-264). -/
def moodFactor (dominant : Option String) : Nat :=
  match dominant with
  | some d => if d ∈ positive_moods then 20 else 10
  | none => 10

/-- Project engagement factor, 5-20 points (analytics.py lines 267-276). -/
def projectsFactor (active_count : Nat) : Nat :=
  if 3 ≤ active_count then 20
  else if 2 ≤ active_count then 15
  else if 1 ≤ active_count then 10
  else 5

/-- `DeepAnalytics._get_productivity_level` (analytics.py lines 287-298);
the returned strings carry the emoji prefixes verbatim from the code. -/
def _get_productivity_level (score : Nat) : String :=
  if 80 ≤ score then "🔥 On Fire"
  else if 60 ≤ score then "✨ Thriving"
  else if 40 ≤ score then "📈 Building Momentum"
  else if 20 ≤ score then "🌱 Growing"
  else "🌙 Resting Phase"

structure ProductivityScore where
  score : Nat
  max_score : Nat
  consistency : Nat
  volume : Nat
  mood : Nat
  projects : Nat
  level : String
deriving DecidableEq, Repr

/-- `DeepAnalytics.get_creative_productivity_score` as a function of the
four factor inputs. -/
def get_creative_productivity_score (current_streak week_entries : Nat)
    (dominant : Option String) (active_count : Nat) : ProductivityScore :=
  let fc := consistencyFactor current_streak
  let fv := volumeFactor week_entries
  let fm := moodFactor dominant
  let fp := projectsFactor active_count
  let total_score := fc + fv + fm + fp
  { score := total_score, max_score := 100
    consistency := fc, volume := fv, mood := fm, projects := fp
    level := _get_productivity_level total_score }

/-- C2 counterexample: factors 20/15/10/10 do give total 55, but the
code's level string is "📈 Building Momentum" (emoji prefix included),
not "Building Momentum" as the claim states. -/
theorem C2_counterexample_emoji_level :
    (get_creative_productivity_score 3 3 (some "sadness") 1).consistency = 20 ∧
      (get_creative_productivity_score 3 3 (some "sadness") 1).volume = 15 ∧
      (get_creative_productivity_score 3 3 (some "sadness") 1).mood = 10 ∧
      (get_creative_productivity_score 3 3 (some "sadness") 1).projects = 10 ∧
      (get_creative_productivity_score 3 3 (some "sadness") 1).score = 55 ∧
      (get_creative_productivity_score 3 3 (some "sadness") 1).level = "📈 Building Momentum" ∧
      (get_creative_productivity_score 3 3 (some "sadness") 1).level ≠ "Building Momentum" := by
  decide

/-- C2 (amended): the total equals the sum of the four factor values, and
the qualitative level is determined from the total by upper-inclusive
breakpoints — total ≥ 80 maps to "🔥 On Fire", 60 ≤ total < 80 to
"✨ Thriving", 40 ≤ total < 60 to "📈 Building Momentum", 20 ≤ total < 40
to "🌱 Growing" and total < 20 to "🌙 Resting Phase" (the code's level
strings carry emoji prefixes); factors 20/15/10/10 give total 55 and level
"📈 Building Momentum". -/
theorem C2_productivity_total_and_level (cs we : Nat) (dominant : Option String) (ac : Nat) :
    (get_creative_productivity_score cs we dominant ac).score =
        (get_creative_productivity_score cs we dominant ac).consistency +
        (get_creative_productivity_score cs we dominant ac).volume +
        (get_creative_productivity_score cs we dominant ac).mood +
        (get_creative_productivity_score cs we dominant ac).projects ∧
      ((get_creative_productivity_score cs we dominant ac).level = "🔥 On Fire" ↔
        80 ≤ (get_creative_productivity_score cs we dominant ac).score) ∧
      ((get_creative_productivity_score cs we dominant ac).level = "✨ Thriving" ↔
        60 ≤ (get_creative_productivity_score cs we dominant ac).score ∧
          (get_creative_productivity_score cs we dominant ac).score < 80) ∧
      ((get_creative_productivity_score cs we dominant ac).level = "📈 Building Momentum" ↔
        40 ≤ (get_creative_productivity_score cs we dominant ac).score ∧
          (get_creative_productivity_score cs we dominant ac).score < 60) ∧
      ((get_creative_productivity_score cs we dominant ac).level = "🌱 Growing" ↔
        20 ≤ (get_creative_productivity_score cs we dominant ac).score ∧
          (get_creative_productivity_score cs we dominant ac).score < 40) ∧
      ((get_creative_productivity_score cs we dominant ac).level = "🌙 Resting Phase" ↔
        (get_creative_productivity_score cs we dominant ac).score < 20) := by
  have hsc : (get_creative_productivity_score cs we dominant ac).score =
      (get_creative_productivity_score cs we dominant ac).consistency +
      (get_creative_productivity_score cs we dominant ac).volume +
      (get_creative_productivity_score cs we dominant ac).mood +
      (get_creative_productivity_score cs we dominant ac).projects := rfl
  have hlev : (get_creative_productivity_score cs we dominant ac).level =
      _get_productivity_level (get_creative_productivity_score cs we dominant ac).score := rfl
  refine ⟨hsc, ?_, ?_, ?_, ?_, ?_⟩ <;> rw [hlev] <;>
    generalize (get_creative_productivity_score cs we dominant ac).score = s <;>
    unfold _get_productivity_level
  · by_cases h80 : 80 ≤ s
    · simp [h80]
    · by_cases h60 : 60 ≤ s
      · simp [h80, h60]
      · by_cases h40 : 40 ≤ s
        · simp [h80, h60, h40]
        · by_cases h20 : 20 ≤ s <;> simp [h80, h60, h40, h20]
  · by_cases h80 : 80 ≤ s
    · simp [h80] <;> omega
    · by_cases h60 : 60 ≤ s
      · simp [h80, h60] <;> omega
      · by_cases h40 : 40 ≤ s
        · simp [h80, h60, h40] <;> omega
        · by_cases h20 : 20 ≤ s <;> simp [h80, h60, h40, h20] <;> omega
  · by_cases h80 : 80 ≤ s
    · simp [h80] <;> omega
    · by_cases h60 : 60 ≤ s
      · simp [h80, h60] <;> omega
      · by_cases h40 : 40 ≤ s
        · simp [h80, h60, h40] <;> omega
        · by_cases h20 : 20 ≤ s <;> simp [h80, h60, h40, h20] <;> omega
  · by_cases h80 : 80 ≤ s
    · simp [h80] <;> omega
    · by_cases h60 : 60 ≤ s
      · simp [h80, h60] <;> omega
      · by_cases h40 : 40 ≤ s
        · simp [h80, h60, h40] <;> omega
        · by_cases h20 : 20 ≤ s <;> simp [h80, h60, h40, h20] <;> omega
  · by_cases h80 : 80 ≤ s
    · simp [h80] <;> omega
    · by_cases h60 : 60 ≤ s
      · simp [h80, h60] <;> omega
      · by_cases h40 : 40 ≤ s
        · simp [h80, h60, h40] <;> omega
        · by_cases h20 : 20 ≤ s <;> simp [h80, h60, h40, h20] <;> omega

/-! ## Project momentum tracker
(`TemporalIntelligence._calculate_project_momentum`)

Mention timestamps are day numbers; `now` carries the same time of day so
that `datetime >= now - timedelta(days=n)` is exactly `now - n ≤ ts`. -/

inductive Momentum where
  | insufficientData (mention_count : Nat)
  | result (status : String) (mention_count : Nat) (days_active : Int)
      (days_since_last_mention : Int) (recent_activity : Nat) (frequency : ℚ)
deriving DecidableEq, Repr

/-- `TemporalIntelligence._calculate_project_momentum`
(temporal_intelligence.py lines 252-286), over the project's mention
timestamps.  `_is_recent(ts, n)` (lines 383-387) is inlined as
`now - n ≤ ts`; `days_active = (last - first).days or 1` turns a zero
difference into 1; the sort is ascending by timestamp. -/
def _calculate_project_momentum (entries : List Int) (now : Int) : Momentum :=
  if entries.length < 2 then .insufficientData entries.length
  else
    let sorted_entries := List.insertionSort (fun a b : Int => a ≤ b) entries
    let first_mention := sorted_entries.headD 0
    let last_mention := sorted_entries.getLastD 0
    let days_active : Int :=
      if last_mention - first_mention = 0 then 1 else last_mention - first_mention
    let recent_mentions := (sorted_entries.filter (fun ts => now - 14 ≤ ts)).length
    let older_mentions := (sorted_entries.filter
      (fun ts => ¬ (now - 14 ≤ ts) ∧ now - days_active ≤ ts)).length
    let status : String :=
      if 10 < days_active ∧ recent_mentions = 0 then "stalled"
      else if older_mentions < recent_mentions then "accelerating"
      else "consistent"
    .result status entries.length days_active (now - last_mention) recent_mentions
      ((entries.length : ℚ) / ((max days_active 1 : Int) : ℚ))

theorem le_getLastD_of_sorted : ∀ (l : List Int) (a : Int),
    List.Sorted (fun x y : Int => x ≤ y) (a :: l) →
    ∀ x ∈ a :: l, x ≤ List.getLastD l a := by
  intro l
  induction l with
  | nil =>
    intro a _ x hx
    rcases List.mem_cons.mp hx with rfl | hx
    · simp [List.getLastD]
    · simp at hx
  | cons b t ih =>
    intro a hs x hx
    rw [List.getLastD_cons]
    have hs' : List.Sorted (fun x y : Int => x ≤ y) (b :: t) := (List.sorted_cons.mp hs).2
    rcases List.mem_cons.mp hx with rfl | hx
    · have hab : x ≤ b := (List.sorted_cons.mp hs).1 b (List.mem_cons_self _ _)
      exact le_trans hab (ih b hs' b (List.mem_cons_self _ _))
    · exact ih b hs' x hx

/-- C1 counterexample (refuting the claim's Scenario C): mentions on day 1
and day 20 evaluated on day 25 give days_active = 19 but
recent_mentions = 1 — day 20 lies within the trailing 14 days of day 25 —
so the status is "accelerating", not "stalled" as the claim asserts. -/
theorem C1_counterexample_scenario_not_stalled :
    _calculate_project_momentum [1, 20] 25 =
      Momentum.result "accelerating" 2 19 5 1 (2 / 19) ∧
      "accelerating" ≠ "stalled" ∧ (1 : Nat) ≠ 0 := by
  refine ⟨?_, by simp, by simp⟩
  have h1 : _calculate_project_momentum [1, 20] 25 =
      Momentum.result "accelerating" 2 19 5 1
        ((([1, 20] : List Int).length : ℚ) / ((max (19 : Int) 1 : Int) : ℚ)) := rfl
  rw [h1]
  norm_num

/-- C1 (amended): for every project with at least 2 mentions, writing
`first`/`last` for the earliest/latest mention,
`days_active = (last - first) or 1`, `recent` for the count of mentions
within the trailing 14 days of now and `older` for the count of mentions
older than 14 days but within `days_active` days of now, the status is
"stalled" if `days_active > 10` and `recent = 0`, otherwise
"accelerating" if `recent > older`, otherwise "consistent".  In the
particular scenario of a project mentioned on day 1 and day 20 evaluated
on day 25, this yields days_active = 19 but recent_mentions = 1 and
status "accelerating" (see the counterexample). -/
theorem C1_momentum_rule (entries : List Int) (now : Int) (h2 : 2 ≤ entries.length) :
    ∃ (first last : Int) (freq : ℚ),
      first ∈ entries ∧ last ∈ entries ∧
      (∀ x ∈ entries, first ≤ x ∧ x ≤ last) ∧
      _calculate_project_momentum entries now =
        Momentum.result
          (if 10 < (if last - first = 0 then 1 else last - first) ∧
              (entries.filter (fun ts => now - 14 ≤ ts)).length = 0 then "stalled"
           else if (entries.filter (fun ts => ¬ (now - 14 ≤ ts) ∧
                  now - (if last - first = 0 then 1 else last - first) ≤ ts)).length <
                (entries.filter (fun ts => now - 14 ≤ ts)).length then "accelerating"
           else "consistent")
          entries.length (if last - first = 0 then 1 else last - first) (now - last)
          ((entries.filter (fun ts => now - 14 ≤ ts)).length) freq := by
  have hnlt : ¬ (entries.length < 2) := by omega
  have hperm : (List.insertionSort (fun a b : Int => a ≤ b) entries).Perm entries :=
    List.perm_insertionSort _ _
  have hsorted : List.Sorted (fun a b : Int => a ≤ b)
      (List.insertionSort (fun a b : Int => a ≤ b) entries) :=
    List.sorted_insertionSort _ _
  have hne : List.insertionSort (fun a b : Int => a ≤ b) entries ≠ [] := by
    intro hc
    have hl := hperm.length_eq
    rw [hc] at hl
    simp at hl
    omega
  cases hs : List.insertionSort (fun a b : Int => a ≤ b) entries with
  | nil => exact absurd hs hne
  | cons a t =>
    rw [hs] at hperm hsorted
    refine ⟨a, (a :: t).getLastD 0,
      ((entries.length : ℚ) / ((max (if (a :: t).getLastD 0 - a = 0 then 1
        else (a :: t).getLastD 0 - a) 1 : Int) : ℚ)), ?_, ?_, ?_, ?_⟩
    · exact hperm.mem_iff.mp (List.mem_cons_self _ _)
    · have hmem : (a :: t).getLastD 0 ∈ a :: t := by
        rw [List.getLastD_cons]
        exact List.getLastD_mem_cons t a
      exact hperm.mem_iff.mp hmem
    · intro x hx
      have hx' : x ∈ a :: t := hperm.mem_iff.mpr hx
      constructor
      · rcases List.mem_cons.mp hx' with rfl | hx''
        · exact le_refl x
        · exact (List.sorted_cons.mp hsorted).1 x hx''
      · rw [List.getLastD_cons]
        exact le_getLastD_of_sorted t a hsorted x hx'
    · have hcalc : _calculate_project_momentum entries now =
          Momentum.result
            (if 10 < (if (a :: t).getLastD 0 - a = 0 then 1 else (a :: t).getLastD 0 - a) ∧
                ((a :: t).filter (fun ts => now - 14 ≤ ts)).length = 0 then "stalled"
             else if ((a :: t).filter (fun ts => ¬ (now - 14 ≤ ts) ∧
                    now - (if (a :: t).getLastD 0 - a = 0 then 1
                      else (a :: t).getLastD 0 - a) ≤ ts)).length <
                  ((a :: t).filter (fun ts => now - 14 ≤ ts)).length then "accelerating"
             else "consistent")
            entries.length
            (if (a :: t).getLastD 0 - a = 0 then 1 else (a :: t).getLastD 0 - a)
            (now - (a :: t).getLastD 0)
            (((a :: t).filter (fun ts => now - 14 ≤ ts)).length)
            ((entries.length : ℚ) / ((max (if (a :: t).getLastD 0 - a = 0 then 1
              else (a :: t).getLastD 0 - a) 1 : Int) : ℚ)) := by
        unfold _calculate_project_momentum
        rw [if_neg hnlt, hs]
        rfl
      rw [hcalc]
      have hf1 : ((a :: t).filter (fun ts => decide (now - 14 ≤ ts))).length =
          (entries.filter (fun ts => decide (now - 14 ≤ ts))).length :=
        (hperm.filter _).length_eq
      have hf2 : ((a :: t).filter (fun ts => decide (¬ (now - 14 ≤ ts) ∧
            now - (if (a :: t).getLastD 0 - a = 0 then 1
              else (a :: t).getLastD 0 - a) ≤ ts))).length =
          (entries.filter (fun ts => decide (¬ (now - 14 ≤ ts) ∧
            now - (if (a :: t).getLastD 0 - a = 0 then 1
              else (a :: t).getLastD 0 - a) ≤ ts))).length :=
        (hperm.filter _).length_eq
      rw [hf1, hf2]

/-- C1 witness: the amended rule instantiated at the scenario mentions
(day 1 and day 20, now = day 25). -/
theorem C1_witness :
    ∃ (first last : Int) (freq : ℚ),
      first ∈ ([1, 20] : List Int) ∧ last ∈ ([1, 20] : List Int) ∧
      (∀ x ∈ ([1, 20] : List Int), first ≤ x ∧ x ≤ last) ∧
      _calculate_project_momentum [1, 20] 25 =
        Momentum.result
          (if 10 < (if last - first = 0 then 1 else last - first) ∧
              (([1, 20] : List Int).filter (fun ts => (25:Int) - 14 ≤ ts)).length = 0
            then "stalled"
           else if (([1, 20] : List Int).filter (fun ts => ¬ ((25:Int) - 14 ≤ ts) ∧
                  25 - (if last - first = 0 then 1 else last - first) ≤ ts)).length <
                (([1, 20] : List Int).filter (fun ts => (25:Int) - 14 ≤ ts)).length
            then "accelerating"
           else "consistent")
          ([1, 20] : List Int).length (if last - first = 0 then 1 else last - first)
          (25 - last)
          ((([1, 20] : List Int).filter (fun ts => (25:Int) - 14 ≤ ts)).length) freq :=
  C1_momentum_rule [1, 20] 25 (by simp)

/-! ## Trigger correlator (`TemporalIntelligence.find_emotional_triggers` and
`_calculate_keyword_emotion_correlations`) -/

structure Correlation where
  keyword : String
  emotion : String
  co_occurrences : Nat
  correlation_strength : ℚ
  avg_emotion_score : ℚ
deriving DecidableEq, Repr

/-- One step of the `keyword_emotion_counts` accumulation
(temporal_intelligence.py lines 412-417): `defaultdict` keyed by the
(keyword, emotion) tuple holding a count and a total score, insertion
ordered. -/
def bumpPair : List ((String × String) × (Nat × ℚ)) → String × String × ℚ →
    List ((String × String) × (Nat × ℚ))
  | [], (k, e, sc) => [((k, e), (1, sc))]
  | (key, cnt) :: rest, (k, e, sc) =>
    if key = (k, e) then (key, (cnt.1 + 1, cnt.2 + sc)) :: rest
    else (key, cnt) :: bumpPair rest (k, e, sc)

/-- `TemporalIntelligence._calculate_keyword_emotion_correlations`
(temporal_intelligence.py lines 409-432): aggregate (keyword, emotion,
score) triples and report every pair with at least 2 co-occurrences,
with `avg = total / count` and
`correlation_strength = avg * count / 10`. -/
def _calculate_keyword_emotion_correlations (pairs : List (String × String × ℚ)) :
    List Correlation :=
  let counts := pairs.foldl bumpPair []
  counts.foldl (fun acc p =>
    if 2 ≤ p.2.1 then
      acc ++ [{ keyword := p.1.1, emotion := p.1.2, co_occurrences := p.2.1,
                correlation_strength := (p.2.2 / (p.2.1 : ℚ)) * (p.2.1 : ℚ) / 10,
                avg_emotion_score := p.2.2 / (p.2.1 : ℚ) }]
    else acc) []

/-- The Scenario D report: "deadline" co-occurring twice with "fear" at
score 0.6 each, reported with count 2, average 0.6 and strength 0.12. -/
def scenarioD : Correlation :=
  ⟨"deadline", "fear", 2, 12/100, 6/10⟩

/-- C6: every reported (keyword, emotion) pair has at least 2
co-occurrences and its correlation_strength equals
(total_score / count) × count / 10 (equivalently avg × count / 10); the
Scenario D input — "deadline" co-occurring twice with "fear" at score 0.6
— is reported with count 2, average score 0.6 and correlation_strength
0.12. -/
theorem C6_correlation_strength_rule :
    (∀ (pairs : List (String × String × ℚ)) (c : Correlation),
        c ∈ _calculate_keyword_emotion_correlations pairs →
        2 ≤ c.co_occurrences ∧
          c.correlation_strength = c.avg_emotion_score * (c.co_occurrences : ℚ) / 10 ∧
          ∃ total : ℚ, c.avg_emotion_score = total / (c.co_occurrences : ℚ) ∧
            c.correlation_strength =
              (total / (c.co_occurrences : ℚ)) * (c.co_occurrences : ℚ) / 10) ∧
      _calculate_keyword_emotion_correlations
          [("deadline", "fear", 6/10), ("deadline", "fear", 6/10)] = [scenarioD] := by
  constructor
  · intro pairs c hc
    have h := (mem_foldl_guard_append
      (fun p : (String × String) × (Nat × ℚ) => 2 ≤ p.2.1)
      (fun p => (⟨p.1.1, p.1.2, p.2.1,
        (p.2.2 / (p.2.1 : ℚ)) * (p.2.1 : ℚ) / 10, p.2.2 / (p.2.1 : ℚ)⟩ : Correlation))
      (pairs.foldl bumpPair []) [] c).mp hc
    rcases h with h | ⟨p, _, hcond, rfl⟩
    · simp at h
    · exact ⟨hcond, rfl, p.2.2, rfl, rfl⟩
  · have h : _calculate_keyword_emotion_correlations
        [("deadline", "fear", 6/10), ("deadline", "fear", 6/10)] =
        [(⟨"deadline", "fear", 2,
          (((6:ℚ)/10 + 6/10) / ((2:Nat) : ℚ)) * ((2:Nat) : ℚ) / 10,
          ((6:ℚ)/10 + 6/10) / ((2:Nat) : ℚ)⟩ : Correlation)] := rfl
    rw [h]
    unfold scenarioD
    simp only [List.cons.injEq, Correlation.mk.injEq]
    norm_num

/-- C6 witness: the universal clause applied to the Scenario D pair list
and its reported correlation. -/
theorem C6_witness :
    2 ≤ scenarioD.co_occurrences ∧
      scenarioD.correlation_strength =
        scenarioD.avg_emotion_score * (scenarioD.co_occurrences : ℚ) / 10 ∧
      ∃ total : ℚ, scenarioD.avg_emotion_score = total / (scenarioD.co_occurrences : ℚ) ∧
        scenarioD.correlation_strength =
          (total / (scenarioD.co_occurrences : ℚ)) * (scenarioD.co_occurrences : ℚ) / 10 :=
  C6_correlation_strength_rule.1 [("deadline", "fear", 6/10), ("deadline", "fear", 6/10)]
    scenarioD
    (by rw [C6_correlation_strength_rule.2]; exact List.mem_singleton.mpr rfl)

/-- An entry as returned by `_get_entries_with_mood`: timestamp, raw text
content and the (possibly empty) emotion-score map attached from the
`moods` table.  The window filter (`timestamp >= now - days`) happens in
the store query; this function receives the in-window list. -/
structure TrigEntry where
  timestamp : Int
  content : String
  moods : List (String × ℚ)
deriving DecidableEq, Repr

inductive TriggerResult where
  | insufficientData
  | success (positive_triggers negative_triggers : List Correlation)
deriving DecidableEq, Repr

/-- `TemporalIntelligence.find_emotional_triggers`
(temporal_intelligence.py lines 292-327).  The keyword extractor
(`_extract_keywords` composed with `str.lower`) is passed as the
`extract` parameter — the spec treats it as an external collaborator —
and the descending sort by correlation_strength is realised by
`insertionSort` with `≥` (tie order is irrelevant to the claims). -/
def find_emotional_triggers (extract : String → List String)
    (entries : List TrigEntry) : TriggerResult :=
  if entries.length < 10 then .insufficientData
  else
    let keyword_emotion_pairs := entries.foldl (fun acc e =>
      e.moods.foldl (fun acc2 m =>
        if (4:ℚ)/10 < m.2 then
          acc2 ++ (extract e.content).map (fun k => (k, m.1, m.2))
        else acc2) acc) []
    let correlations := _calculate_keyword_emotion_correlations keyword_emotion_pairs
    let positive := correlations.filter (fun c => c.emotion ∈ ["joy", "love"])
    let negative := correlations.filter (fun c => c.emotion ∈ ["anger", "sadness", "fear"])
    .success
      ((List.insertionSort (fun a b : Correlation =>
          a.correlation_strength ≥ b.correlation_strength) positive).take 10)
      ((List.insertionSort (fun a b : Correlation =>
          a.correlation_strength ≥ b.correlation_strength) negative).take 10)

/-- Ten in-window entries carrying no emotion data at all. -/
def tenMoodless : List TrigEntry :=
  [⟨0, "", []⟩, ⟨0, "", []⟩, ⟨0, "", []⟩, ⟨0, "", []⟩, ⟨0, "", []⟩,
   ⟨0, "", []⟩, ⟨0, "", []⟩, ⟨0, "", []⟩, ⟨0, "", []⟩, ⟨0, "", []⟩]

/-- C10 counterexample: ten in-window entries none of which has any
emotion data still make the correlator return "success" — the 10-entry
threshold counts all fetched entries, not entries with emotion data, so
"insufficient_data whenever fewer than 10 entries with emotion data
exist" is false. -/
theorem C10_counterexample_moodless_entries :
    find_emotional_triggers (fun _ => []) tenMoodless = TriggerResult.success [] [] ∧
      (tenMoodless.filter (fun e => !e.moods.isEmpty)).length = 0 ∧
      TriggerResult.success [] [] ≠ TriggerResult.insufficientData := by
  refine ⟨rfl, rfl, by simp⟩

/-- C10 (amended): the emotional-trigger correlator returns status
"insufficient_data" exactly when fewer than 10 entries were fetched for
the analysis window (with or without emotion data), and with 10 or more
entries it returns status "success" carrying the positive and negative
trigger lists — a minimum distinct from the per-pair co-occurrence ≥ 2
requirement. -/
theorem C10_trigger_threshold (extract : String → List String) (entries : List TrigEntry) :
    (find_emotional_triggers extract entries = TriggerResult.insufficientData ↔
      entries.length < 10) ∧
    (10 ≤ entries.length → ∃ pos neg,
      find_emotional_triggers extract entries = TriggerResult.success pos neg) := by
  by_cases h : entries.length < 10
  · constructor
    · simp [find_emotional_triggers, h]
    · intro h10
      omega
  · constructor
    · unfold find_emotional_triggers
      rw [if_neg h]
      simp only [iff_false]
      constructor
      · intro hc
        cases hc
      · omega
    · intro _
      unfold find_emotional_triggers
      rw [if_neg h]
      exact ⟨_, _, rfl⟩

/-- C10 witness: ten concrete entries (one with a qualifying mood) reach
the success branch. -/
theorem C10_witness :
    ∃ pos neg,
      find_emotional_triggers (fun _ => ["deadline"])
        ((⟨0, "x", [("fear", 6/10)]⟩ : TrigEntry) :: tenMoodless) =
        TriggerResult.success pos neg :=
  (C10_trigger_threshold (fun _ => ["deadline"])
    ((⟨0, "x", [("fear", 6/10)]⟩ : TrigEntry) :: tenMoodless)).2
    (by simp [tenMoodless])

/-! ## Temporal cycle detector (`TemporalIntelligence.detect_mood_cycles`
and `_detect_mood_streaks`)

An entry's ISO timestamp is modelled as a (day, time-of-day) pair ordered
lexicographically — exactly how ISO strings compare — and
`entry['timestamp'][:10]` is the `day` component. -/

structure MoodEntry where
  day : Int
  time : Int
  moods : List (String × ℚ)
deriving DecidableEq, Repr

structure MoodStreak where
  emotion : String
  length : Nat
  start_date : Int
  end_date : Int
deriving DecidableEq, Repr

/-- Chronological (ISO-string) order on entry timestamps. -/
def tsLe (a b : MoodEntry) : Prop :=
  a.day < b.day ∨ (a.day = b.day ∧ a.time ≤ b.time)

instance : DecidableRel tsLe := fun a b => by unfold tsLe; infer_instance

/-- The entry loop of `_detect_mood_streaks` (temporal_intelligence.py
lines 172-199): take the entry's dominant emotion (Python `max` over the
mood dict — raising, modelled as `.error`, when the dict is empty), skip
the entry when its score is below 0.3 (`if score < 0.3: continue`),
extend the current run on the same emotion, otherwise close the run
(recorded only when its length is at least 3) and start a new one; the
final run is closed after the loop. -/
def streakLoop : List MoodEntry → Option MoodStreak → List MoodStreak →
    Except Unit (List MoodStreak)
  | [], cur, acc =>
    match cur with
    | some c => if 3 ≤ c.length then .ok (acc ++ [c]) else .ok acc
    | none => .ok acc
  | e :: rest, cur, acc =>
    match firstMax e.moods with
    | none => .error ()
    | some (emotion, score) =>
      if score < (3:ℚ)/10 then streakLoop rest cur acc
      else
        match cur with
        | some c =>
          if c.emotion = emotion then
            streakLoop rest (some { c with length := c.length + 1, end_date := e.day }) acc
          else
            streakLoop rest (some ⟨emotion, 1, e.day, e.day⟩)
              (if 3 ≤ c.length then acc ++ [c] else acc)
        | none => streakLoop rest (some ⟨emotion, 1, e.day, e.day⟩) acc

/-- The recorded streak list of `_detect_mood_streaks`: the loop run over
the entries sorted chronologically. -/
def moodStreaksOf (entries : List MoodEntry) : Except Unit (List MoodStreak) :=
  streakLoop (List.insertionSort tsLe entries) none []

/-- Python `max(streaks, key=lambda x: x['length'])`: first maximum wins. -/
def pickMaxBy (f : MoodStreak → Nat) : List MoodStreak → Option MoodStreak
  | [] => none
  | s :: rest => some (rest.foldl (fun best q => if f q > f best then q else best) s)

structure StreakReport where
  notable_streaks : List MoodStreak
  longest_positive : Option MoodStreak
  longest_negative : Option MoodStreak
deriving DecidableEq, Repr

/-- `TemporalIntelligence._detect_mood_streaks` (temporal_intelligence.py
lines 167-205): top-5 runs by length plus the longest positive
({joy, love, surprise}) and negative ({sadness, anger, fear}) runs. -/
def _detect_mood_streaks (entries : List MoodEntry) : Except Unit StreakReport :=
  match moodStreaksOf entries with
  | .error e => .error e
  | .ok streaks =>
    .ok ⟨(List.insertionSort (fun a b : MoodStreak => a.length ≥ b.length) streaks).take 5,
      pickMaxBy (fun s => s.length)
        (streaks.filter (fun s => s.emotion ∈ ["joy", "love", "surprise"])),
      pickMaxBy (fun s => s.length)
        (streaks.filter (fun s => s.emotion ∈ ["sadness", "anger", "fear"]))⟩

/-- Status and streak payload of `detect_mood_cycles`.  The success value
also carries `data_points = len(entries)`; the remaining report fields
(day-of-week and time-of-day averages, volatility ranking, summary) are
unconditional aggregations that cannot change the status and are not
needed by any claim. -/
inductive CycleResult where
  | insufficientData
  | success (data_points : Nat) (streaks : StreakReport)
deriving DecidableEq, Repr

/-- `TemporalIntelligence.detect_mood_cycles` (temporal_intelligence.py
lines 37-71): fewer than 7 entries in the window yield
`insufficient_data`, otherwise the full report with status `success`. -/
def detect_mood_cycles (entries : List MoodEntry) : Except Unit CycleResult :=
  if entries.length < 7 then .ok .insufficientData
  else
    match _detect_mood_streaks entries with
    | .error e => .error e
    | .ok report => .ok (.success entries.length report)

/-- Reference form of the amended C5 claim: the dominant emotion (with its
entry's date) of every entry whose dominant score is at least 0.3, in
chronological order; entries below the threshold are dropped — which is
exactly "skipped without breaking an in-progress run". -/
def dominantSeq (l : List MoodEntry) : List (String × Int) :=
  l.filterMap (fun e => (firstMax e.moods).bind
    (fun d => if (3:ℚ)/10 ≤ d.2 then some (d.1, e.day) else none))

/-- Reference run-grouping (continuation with an open run `c`): extend on
equal emotions, close and record the run only when its length reaches 3. -/
def runsSpecGo : List (String × Int) → MoodStreak → List MoodStreak
  | [], c => if 3 ≤ c.length then [c] else []
  | (em, d) :: rest, c =>
    if c.emotion = em then
      runsSpecGo rest { c with length := c.length + 1, end_date := d }
    else (if 3 ≤ c.length then [c] else []) ++ runsSpecGo rest ⟨em, 1, d, d⟩

/-- Reference implementation of the amended C5 claim: group the filtered
dominant-emotion sequence into maximal consecutive runs and keep those of
length at least 3. -/
def runsSpec : List (String × Int) → List MoodStreak
  | [] => []
  | (em, d) :: rest => runsSpecGo rest ⟨em, 1, d, d⟩

/-- Continuation form used by the refinement induction. -/
def runsFrom : Option MoodStreak → List (String × Int) → List MoodStreak
  | none, s => runsSpec s
  | some c, s => runsSpecGo s c

theorem firstMax_of_ne_nil {l : List (String × ℚ)} (h : l ≠ []) :
    ∃ p, firstMax l = some p := by
  cases l with
  | nil => exact absurd rfl h
  | cons p rest => exact ⟨pickMax p rest, rfl⟩

theorem streakLoop_eq_runsFrom :
    ∀ (l : List MoodEntry) (cur : Option MoodStreak) (acc : List MoodStreak),
      (∀ e ∈ l, e.moods ≠ []) →
      streakLoop l cur acc = .ok (acc ++ runsFrom cur (dominantSeq l)) := by
  intro l
  induction l with
  | nil =>
    intro cur acc _
    cases cur with
    | none => simp [streakLoop, runsFrom, runsSpec, dominantSeq]
    | some c =>
      by_cases hlen : 3 ≤ c.length <;>
        simp [streakLoop, runsFrom, runsSpecGo, dominantSeq, hlen]
  | cons e rest ih =>
    intro cur acc hm
    have hmrest : ∀ x ∈ rest, x.moods ≠ [] := fun x hx => hm x (List.mem_cons_of_mem _ hx)
    obtain ⟨⟨em, sc⟩, hfm⟩ := firstMax_of_ne_nil (hm e (List.mem_cons_self _ _))
    simp only [streakLoop, hfm]
    by_cases hsc : sc < (3:ℚ)/10
    · have hseq : dominantSeq (e :: rest) = dominantSeq rest := by
        unfold dominantSeq
        rw [List.filterMap_cons, hfm]
        simp [Option.bind, if_neg (not_le.mpr hsc)]
      rw [if_pos hsc, hseq]
      exact ih cur acc hmrest
    · have hseq : dominantSeq (e :: rest) = (em, e.day) :: dominantSeq rest := by
        unfold dominantSeq
        rw [List.filterMap_cons, hfm]
        simp [Option.bind, if_pos (le_of_not_lt hsc)]
      rw [if_neg hsc, hseq]
      cases cur with
      | none =>
        show streakLoop rest (some ⟨em, 1, e.day, e.day⟩) acc =
          Except.ok (acc ++ runsFrom none ((em, e.day) :: dominantSeq rest))
        rw [ih (some ⟨em, 1, e.day, e.day⟩) acc hmrest]
        rfl
      | some c =>
        show (if c.emotion = em then
            streakLoop rest (some { c with length := c.length + 1, end_date := e.day }) acc
          else
            streakLoop rest (some ⟨em, 1, e.day, e.day⟩)
              (if 3 ≤ c.length then acc ++ [c] else acc)) =
          Except.ok (acc ++ runsFrom (some c) ((em, e.day) :: dominantSeq rest))
        by_cases hem : c.emotion = em
        · rw [if_pos hem,
            ih (some { c with length := c.length + 1, end_date := e.day }) acc hmrest]
          have hrf : runsFrom (some c) ((em, e.day) :: dominantSeq rest) =
              runsSpecGo (dominantSeq rest)
                { c with length := c.length + 1, end_date := e.day } := by
            show runsSpecGo ((em, e.day) :: dominantSeq rest) c = _
            rw [runsSpecGo, if_pos hem]
          rw [hrf]
          rfl
        · rw [if_neg hem,
            ih (some ⟨em, 1, e.day, e.day⟩) (if 3 ≤ c.length then acc ++ [c] else acc) hmrest]
          have hrf : runsFrom (some c) ((em, e.day) :: dominantSeq rest) =
              (if 3 ≤ c.length then [c] else []) ++
                runsSpecGo (dominantSeq rest) ⟨em, 1, e.day, e.day⟩ := by
            show runsSpecGo ((em, e.day) :: dominantSeq rest) c = _
            rw [runsSpecGo, if_neg hem]
          rw [hrf]
          by_cases hlen : 3 ≤ c.length
          · rw [if_pos hlen, if_pos hlen, List.append_assoc]
            rfl
          · rw [if_neg hlen, if_neg hlen, List.nil_append]
            rfl

theorem runsSpecGo_min_length : ∀ (s : List (String × Int)) (c : MoodStreak)
    (r : MoodStreak), r ∈ runsSpecGo s c → 3 ≤ r.length := by
  intro s
  induction s with
  | nil =>
    intro c r hr
    by_cases hlen : 3 ≤ c.length
    · rw [runsSpecGo, if_pos hlen] at hr
      rcases List.mem_singleton.mp hr with rfl
      exact hlen
    · rw [runsSpecGo, if_neg hlen] at hr
      simp at hr
  | cons p rest ih =>
    intro c r hr
    obtain ⟨em, d⟩ := p
    by_cases hem : c.emotion = em
    · rw [runsSpecGo, if_pos hem] at hr
      exact ih _ r hr
    · rw [runsSpecGo, if_neg hem] at hr
      rcases List.mem_append.mp hr with hr | hr
      · by_cases hlen : 3 ≤ c.length
        · rw [if_pos hlen] at hr
          rcases List.mem_singleton.mp hr with rfl
          exact hlen
        · rw [if_neg hlen] at hr
          simp at hr
      · exact ih _ r hr

theorem runsSpec_min_length (s : List (String × Int)) (r : MoodStreak)
    (hr : r ∈ runsSpec s) : 3 ≤ r.length := by
  cases s with
  | nil => simp [runsSpec] at hr
  | cons p rest =>
    obtain ⟨em, d⟩ := p
    exact runsSpecGo_min_length rest _ r hr

/-- Three chronological entries whose dominant emotion "joy" scores
exactly 0.3 — the boundary of the significance threshold. -/
def joyBoundaryEntries : List MoodEntry :=
  [⟨1, 0, [("joy", 3/10)]⟩, ⟨2, 0, [("joy", 3/10)]⟩, ⟨3, 0, [("joy", 3/10)]⟩]

/-- C5 counterexample: in each of these entries the dominant score is
exactly 0.3, hence not strictly greater than 0.3 — under the claim all
three would be skipped and no run recorded — yet the code counts them
(it skips only scores strictly below 0.3) and records a run of length 3. -/
theorem C5_counterexample_boundary_score :
    moodStreaksOf joyBoundaryEntries = .ok [⟨"joy", 3, 1, 3⟩] ∧
      ∀ e ∈ joyBoundaryEntries,
        ∃ p, firstMax e.moods = some p ∧ p.2 = 3/10 ∧ ¬ (p.2 > 3/10) := by
  constructor
  · have hnot : ¬ ((3:ℚ)/10 < 3/10) := lt_irrefl _
    have hsort : List.insertionSort tsLe joyBoundaryEntries = joyBoundaryEntries := rfl
    rw [moodStreaksOf, hsort]
    simp [joyBoundaryEntries, streakLoop, firstMax, pickMax, hnot]
  · intro e he
    unfold joyBoundaryEntries at he
    rcases List.mem_cons.mp he with rfl | he
    · exact ⟨("joy", 3/10), rfl, rfl, lt_irrefl _⟩
    rcases List.mem_cons.mp he with rfl | he
    · exact ⟨("joy", 3/10), rfl, rfl, lt_irrefl _⟩
    rcases List.mem_cons.mp he with rfl | he
    · exact ⟨("joy", 3/10), rfl, rfl, lt_irrefl _⟩
    · simp at he

/-- C5 (amended): iterating entries chronologically, an entry's dominant
emotion is counted only if its score is at least 0.3 (scores strictly
below 0.3 are skipped — the boundary 0.3 itself qualifies); a
non-qualifying entry is skipped without breaking an in-progress run; a
run extends while consecutive qualifying entries share the same dominant
emotion and is recorded only if its length is at least 3.  Formally, the
recorded list equals the reference computation that filters the
chronological entries to the qualifying dominant emotions and groups
consecutive equal ones, keeping groups of length ≥ 3. -/
theorem C5_dominant_streak_rule (entries : List MoodEntry)
    (hmoods : ∀ e ∈ entries, e.moods ≠ []) :
    moodStreaksOf entries =
      .ok (runsSpec (dominantSeq (List.insertionSort tsLe entries))) ∧
    ∀ s, moodStreaksOf entries = .ok s → ∀ r ∈ s, 3 ≤ r.length := by
  have hm' : ∀ e ∈ List.insertionSort tsLe entries, e.moods ≠ [] := by
    intro e he
    exact hmoods e (by simpa using he)
  have h := streakLoop_eq_runsFrom (List.insertionSort tsLe entries) none [] hm'
  have hmain : moodStreaksOf entries =
      .ok (runsSpec (dominantSeq (List.insertionSort tsLe entries))) := by
    rw [moodStreaksOf, h]
    rfl
  refine ⟨hmain, ?_⟩
  intro s hs r hr
  rw [hmain] at hs
  have hse : runsSpec (dominantSeq (List.insertionSort tsLe entries)) = s :=
    Except.ok.inj hs
  rw [← hse] at hr
  exact runsSpec_min_length _ r hr

/-- C5 witness: the amended rule applied to the three boundary entries. -/
theorem C5_witness :
    moodStreaksOf joyBoundaryEntries =
      .ok (runsSpec (dominantSeq (List.insertionSort tsLe joyBoundaryEntries))) ∧
    ∀ s, moodStreaksOf joyBoundaryEntries = .ok s → ∀ r ∈ s, 3 ≤ r.length :=
  C5_dominant_streak_rule joyBoundaryEntries (by
    intro e he
    unfold joyBoundaryEntries at he
    rcases List.mem_cons.mp he with rfl | he
    · simp
    rcases List.mem_cons.mp he with rfl | he
    · simp
    rcases List.mem_cons.mp he with rfl | he
    · simp
    · simp at he)

/-- Seven chronological entries each carrying an emotion vector. -/
def sevenJoyEntries : List MoodEntry :=
  [⟨1, 0, [("joy", 1/2)]⟩, ⟨2, 0, [("joy", 1/2)]⟩, ⟨3, 0, [("joy", 1/2)]⟩,
   ⟨4, 0, [("joy", 1/2)]⟩, ⟨5, 0, [("joy", 1/2)]⟩, ⟨6, 0, [("joy", 1/2)]⟩,
   ⟨7, 0, [("joy", 1/2)]⟩]

/-- C9: the temporal cycle detector reports status "insufficient_data"
exactly when fewer than the minimum 7 required data points are in the
analysis window, and with 7 or more entries (each carrying an emotion
vector, per the input contract) it returns the full result with status
"success". -/
theorem C9_cycle_threshold (entries : List MoodEntry) :
    (detect_mood_cycles entries = .ok CycleResult.insufficientData ↔ entries.length < 7) ∧
    (7 ≤ entries.length → (∀ e ∈ entries, e.moods ≠ []) →
      ∃ report, detect_mood_cycles entries = .ok (.success entries.length report)) := by
  constructor
  · constructor
    · intro h
      by_contra hge
      rw [detect_mood_cycles, if_neg hge] at h
      cases hd : _detect_mood_streaks entries with
      | error e => rw [hd] at h; simp at h
      | ok r => rw [hd] at h; simp at h
    · intro h
      rw [detect_mood_cycles, if_pos h]
  · intro h7 hmoods
    have hm' : ∀ e ∈ List.insertionSort tsLe entries, e.moods ≠ [] := by
      intro e he
      exact hmoods e (by simpa using he)
    have hok := streakLoop_eq_runsFrom (List.insertionSort tsLe entries) none [] hm'
    have hdet : ∃ rep, _detect_mood_streaks entries = .ok rep := by
      rw [_detect_mood_streaks, moodStreaksOf, hok]
      exact ⟨_, rfl⟩
    obtain ⟨rep, hrep⟩ := hdet
    refine ⟨rep, ?_⟩
    rw [detect_mood_cycles, if_neg (by omega), hrep]

/-- C9 witness: seven concrete entries with emotion vectors reach the
success branch; six do not suffice. -/
theorem C9_witness :
    (detect_mood_cycles (sevenJoyEntries.take 6) = .ok CycleResult.insufficientData ↔
      (sevenJoyEntries.take 6).length < 7) ∧
    ∃ report, detect_mood_cycles sevenJoyEntries =
      .ok (.success sevenJoyEntries.length report) :=
  ⟨(C9_cycle_threshold (sevenJoyEntries.take 6)).1,
   (C9_cycle_threshold sevenJoyEntries).2 (by simp [sevenJoyEntries]) (by
    intro e he
    unfold sevenJoyEntries at he
    rcases List.mem_cons.mp he with rfl | he
    · simp
    rcases List.mem_cons.mp he with rfl | he
    · simp
    rcases List.mem_cons.mp he with rfl | he
    · simp
    rcases List.mem_cons.mp he with rfl | he
    · simp
    rcases List.mem_cons.mp he with rfl | he
    · simp
    rcases List.mem_cons.mp he with rfl | he
    · simp
    rcases List.mem_cons.mp he with rfl | he
    · simp
    · simp at he)⟩

end DiaryML
